import Mathlib

/-!
Verification of the version-resolution and matching logic of the
indi-3rdparty comparison scripts (`compare_debian_drivers.py`,
`indi_dependency_checker.py`, `merged_drivers.py`).

The Python code is shallowly embedded: external collaborators (the git
client, the apt package index, the filesystem) are passed in as explicit
oracle values (the stdout lines of an `apt-cache` call, the latest commit
of a repository, the lines of a changelog file, the success flag of a
clone/pull).  Pure string manipulation is translated function by function.
Python exceptions are modelled with `Except PyErr`; a function that Python
lets an exception escape from returns `.error`, a function that catches it
converts to the sentinel values exactly as the source does.
-/

/-- Python exception kinds that the embedded code can raise. -/
inductive PyErr where
  | indexError
  | typeError
  | valueError
deriving Repr, DecidableEq

namespace Py

/-- Characters treated as whitespace by Python's `str.split()` /
`str.strip()` (ASCII range, which covers the data handled here). -/
def isPyWs (c : Char) : Bool :=
  c = ' ' || c = '\t' || c = '\n' || c = '\r' || c = '\x0b' || c = '\x0c'

/-- Helper for `pySplit`: walk the characters, `cur` is the reversed
current word. -/
def wordsAux (cur : List Char) : List Char → List (List Char)
  | [] => if cur.isEmpty then [] else [cur.reverse]
  | c :: cs =>
      if isPyWs c then
        if cur.isEmpty then wordsAux [] cs else cur.reverse :: wordsAux [] cs
      else wordsAux (c :: cur) cs

/-- Python `s.split()` (no argument): split on runs of whitespace,
discarding empty tokens. -/
def pySplit (s : String) : List String :=
  (wordsAux [] s.data).map (fun l => ⟨l⟩)

/-- Python `s.strip(chars)` for a character-set predicate: drop matching
characters from both ends. -/
def pyStrip (p : Char → Bool) (s : String) : String :=
  ⟨((s.data.dropWhile p).reverse.dropWhile p).reverse⟩

/-- Python `s.strip()` (whitespace). -/
def pyStripWs (s : String) : String := pyStrip isPyWs s

/-- Python `s.strip("()")`. -/
def pyStripParens (s : String) : String := pyStrip (fun c => c = '(' || c = ')') s

/-- Split a character list at the LAST occurrence of `sep`:
`some (before, after)`, or `none` when `sep` does not occur. -/
def splitLast (sep : Char) : List Char → Option (List Char × List Char)
  | [] => none
  | c :: cs =>
      match splitLast sep cs with
      | some (pre, post) => some (c :: pre, post)
      | none => if c = sep then some ([], cs) else none

/-- Python `s.rpartition(sep)` (for a single-character separator):
`(head, sep, tail)` at the last occurrence, or `("", "", s)` when absent. -/
def rpartition (sep : Char) (s : String) : String × String × String :=
  match splitLast sep s.data with
  | some (pre, post) => (⟨pre⟩, ⟨[sep]⟩, ⟨post⟩)
  | none => ("", "", s)

/-- Python `s.isdigit()` restricted to ASCII digits (the package names
handled here are ASCII): true iff `s` is nonempty and all digits. -/
def isdigit (s : String) : Bool :=
  !s.data.isEmpty && s.data.all Char.isDigit

/-- Decimal value of a digit list (most significant first). -/
def digitsToNat : List Char → Nat → Nat
  | [], acc => acc
  | c :: cs, acc => digitsToNat cs (acc * 10 + (c.toNat - '0'.toNat))

/-- Python `int(s)` restricted to an optional sign followed by ASCII
digits; `none` models the `ValueError` that Python raises otherwise. -/
def pyInt (s : String) : Option Int :=
  match s.data with
  | [] => none
  | '-' :: rest =>
      if !rest.isEmpty && rest.all Char.isDigit then some (-(digitsToNat rest 0 : Int)) else none
  | '+' :: rest =>
      if !rest.isEmpty && rest.all Char.isDigit then some (digitsToNat rest 0 : Int) else none
  | l => if l.all Char.isDigit then some (digitsToNat l 0 : Int) else none

/-- Substring test over character lists (`pat in s` in Python). -/
def listContainsSub (l pat : List Char) : Bool :=
  (List.range (l.length + 1)).any (fun i => pat.isPrefixOf (l.drop i))

/-- Python `pat in s` for strings. -/
def strContains (s pat : String) : Bool := listContainsSub s.data pat.data

/-- Lookup in an insertion-ordered dict modelled as an association list. -/
def dictFind (d : List (String × String)) (k : String) : Option String :=
  (d.find? (fun kv => kv.1 = k)).map (·.2)

/-- Update/insert in an insertion-ordered dict: an existing key keeps its
position (Python dict semantics), a new key is appended. -/
def dictSet (d : List (String × String)) (k v : String) : List (String × String) :=
  match d with
  | [] => [(k, v)]
  | (k', v') :: rest => if k' = k then (k, v) :: rest else (k', v') :: dictSet rest k v

end Py

namespace compare_debian_drivers

open Py

/-- Loop body of `handle_soname_versions` (compare_debian_drivers.py,
lines 213-233), threading the insertion-ordered `package_dict`.
`.error .valueError` models the uncaught `ValueError` that
`int(current_version.rpartition('-')[-1])` raises when the stored
representative's tail after the last `-` is not a decimal literal. -/
def hsvLoop : List String → List (String × String) → Except PyErr (List (String × String))
  | [], dict => .ok dict
  | package :: rest, dict =>
      let parts := rpartition '-' package
      let version_suffix := parts.2.2
      let base_name := if isdigit version_suffix then parts.1 else package
      match dictFind dict base_name with
      | some current_version =>
          if isdigit version_suffix then
            match pyInt version_suffix, pyInt (rpartition '-' current_version).2.2 with
            | some a, some b =>
                if a > b then hsvLoop rest (dictSet dict base_name package)
                else hsvLoop rest dict
            | _, _ => .error .valueError
          else hsvLoop rest dict
      | none => hsvLoop rest (dictSet dict base_name package)

/-- `handle_soname_versions(packages)` of compare_debian_drivers.py:
returns `list(package_dict.values())`, or the Python exception. -/
def handle_soname_versions (packages : List String) : Except PyErr (List String) :=
  (hsvLoop packages []).map (fun dict => dict.map (·.2))

end compare_debian_drivers

namespace indi_dependency_checker

open Py

/-- `handle_soname_versions(packages)` of indi_dependency_checker.py,
lines 75-87 (textually the same algorithm as in
compare_debian_drivers.py). -/
def hsvLoop : List String → List (String × String) → Except PyErr (List (String × String))
  | [], dict => .ok dict
  | package :: rest, dict =>
      let parts := rpartition '-' package
      let version_suffix := parts.2.2
      let base_name := if isdigit version_suffix then parts.1 else package
      match dictFind dict base_name with
      | some current_version =>
          if isdigit version_suffix then
            match pyInt version_suffix, pyInt (rpartition '-' current_version).2.2 with
            | some a, some b =>
                if a > b then hsvLoop rest (dictSet dict base_name package)
                else hsvLoop rest dict
            | _, _ => .error .valueError
          else hsvLoop rest dict
      | none => hsvLoop rest (dictSet dict base_name package)

/-- `handle_soname_versions` of indi_dependency_checker.py. -/
def handle_soname_versions (packages : List String) : Except PyErr (List String) :=
  (hsvLoop packages []).map (fun dict => dict.map (·.2))

/-!
`sort_packages_by_dependencies(packages)` (indi_dependency_checker.py,
lines 187-211).  The external `apt-cache depends` call is the oracle
`deps : String → List String` (the parsed `Depends:` tokens, in order,
possibly with repetitions).  The Python builds `dependency_graph` /
`indegree` as defaultdicts and then runs Kahn's algorithm with a FIFO
deque.  The loop is embedded with explicit fuel; the fuel chosen in
`sort_packages_by_dependencies` provably exceeds the number of loop
iterations (`kahnLoop_run` below shows the queue empties before the
fuel does), so the embedding computes exactly what the unbounded
`while queue:` loop computes.
-/

/-- The in-set dependency occurrences of `p`: the `dep` tokens of
`get_dependencies(p)` that pass the `if dep in packages:` test, with
multiplicity and in order. -/
def inDeps (packages : List String) (deps : String → List String) (p : String) : List String :=
  (deps p).filter (fun d => packages.contains d)

/-- `dependency_graph[d]` after the building loop: for each `package` in
`packages` (in order), one append of `package` per occurrence of `d` in
its dependency list.  A name that is not in `packages` never gets an
entry (defaultdict: the empty list). -/
def graphFn (packages : List String) (deps : String → List String) (d : String) : List String :=
  if packages.contains d then
    (packages.map (fun p => List.replicate ((deps p).count d) p)).flatten
  else []

/-- `indegree[p]` after the building loop: one increment per in-set
dependency occurrence, once for each time `p` occurs in `packages`
(defaultdict: `0` for a name never incremented). -/
def indeg0 (packages : List String) (deps : String → List String) (p : String) : Int :=
  ((packages.count p * (inDeps packages deps p).length : Nat) : Int)

/-- The inner `for neighbor in dependency_graph[pkg]:` loop: decrement
each neighbour's indegree in turn and append it to the queue the moment
its indegree becomes exactly `0`. -/
def processNeighbors (indeg : String → Int) (queue : List String) :
    List String → (String → Int) × List String
  | [] => (indeg, queue)
  | n :: ns =>
      let indeg2 : String → Int := fun x => if x = n then indeg x - 1 else indeg x
      processNeighbors indeg2 (if indeg2 n = 0 then queue ++ [n] else queue) ns

/-- The `while queue:` loop of Kahn's algorithm, with fuel.  When the
fuel is at least the remaining number of iterations the `0` case is
never reached with a nonempty queue (see `kahnLoop_run`). -/
def kahnLoop (graph : String → List String) :
    Nat → (String → Int) → List String → List String → List String
  | 0, _, _, acc => acc
  | fuel + 1, indeg, queue, acc =>
      match queue with
      | [] => acc
      | pkg :: rest =>
          let st := processNeighbors indeg rest (graph pkg)
          kahnLoop graph fuel st.1 st.2 (acc ++ [pkg])

/-- Total of the nonnegative parts of the indegrees over `packages`;
together with the queue length this bounds the remaining loop
iterations and is used as fuel. -/
def sumIndeg (packages : List String) (indeg : String → Int) : Nat :=
  (packages.map (fun p => (indeg p).toNat)).sum

/-- `sort_packages_by_dependencies(packages)` (lines 187-211). -/
def sort_packages_by_dependencies (packages : List String) (deps : String → List String) :
    List String :=
  kahnLoop (graphFn packages deps)
    ((packages.filter (fun p => indeg0 packages deps p = 0)).length
      + sumIndeg packages (indeg0 packages deps))
    (indeg0 packages deps)
    (packages.filter (fun p => indeg0 packages deps p = 0))
    []

/-- The in-set dependency edge relation `d -> p` (`d` is a dependency of
`p`, both in the input set); dependencies outside the set induce no
edge, matching the `if dep in packages:` test. -/
def Edge (packages : List String) (deps : String → List String) (d p : String) : Prop :=
  d ∈ packages ∧ p ∈ packages ∧ d ∈ deps p

instance (packages : List String) (deps : String → List String) (d p : String) :
    Decidable (Edge packages deps d p) :=
  inferInstanceAs (Decidable (_ ∧ _ ∧ _))

/-- `l` is a cycle of `r`: starting from its head, `r` steps through the
list and back to the head. -/
def IsCycle (r : String → String → Prop) : List String → Prop
  | [] => False
  | x :: xs => List.Chain r x (xs ++ [x])

/-- The in-set dependency graph has no cycle. -/
def Acyclic (r : String → String → Prop) : Prop :=
  ∀ l : List String, ¬ IsCycle r l

/-- A package is `Safe` when it can be dequeued by Kahn's algorithm:
all of its in-set dependencies (transitively) can be dequeued first.
Packages on a cycle, or whose every path to zero in-degree passes
through a cycle, are exactly the non-`Safe` members of the set. -/
inductive Safe (packages : List String) (deps : String → List String) : String → Prop
  | intro (p : String) (hp : p ∈ packages)
      (h : ∀ d, Edge packages deps d p → Safe packages deps d) : Safe packages deps p

/-- Invariant of the Kahn loop state (`indeg`, `queue`, `acc`), for a
duplicate-free input list:
* each package occurs at most once in `acc ++ queue`, and only members
  of `packages` occur;
* `indeg p` counts the in-set dependency occurrences of `p` whose source
  has not yet been dequeued (`0` for names outside `packages`);
* a package has been seen (dequeued or queued) exactly when all its
  in-set dependencies have been dequeued;
* every dequeued package was dequeued after all its in-set dependencies.
-/
def Inv (packages : List String) (deps : String → List String)
    (indeg : String → Int) (queue acc : List String) : Prop :=
  (acc ++ queue).Nodup
  ∧ (∀ x ∈ acc ++ queue, x ∈ packages)
  ∧ (∀ p, indeg p = if p ∈ packages
        then (((inDeps packages deps p).filter (fun d => decide (d ∉ acc))).length : Int)
        else 0)
  ∧ (∀ p ∈ packages, (p ∈ acc ++ queue ↔ ∀ d ∈ inDeps packages deps p, d ∈ acc))
  ∧ (∀ (i : Nat) (hi : i < acc.length), ∀ d ∈ inDeps packages deps (acc.get ⟨i, hi⟩),
        d ∈ acc.take i)

end indi_dependency_checker

namespace merged_drivers

open Py

/-- `handle_soname_versions(packages)` of merged_drivers.py, lines
133-147 (textually the same algorithm as in compare_debian_drivers.py). -/
def hsvLoop : List String → List (String × String) → Except PyErr (List (String × String))
  | [], dict => .ok dict
  | package :: rest, dict =>
      let parts := rpartition '-' package
      let version_suffix := parts.2.2
      let base_name := if isdigit version_suffix then parts.1 else package
      match dictFind dict base_name with
      | some current_version =>
          if isdigit version_suffix then
            match pyInt version_suffix, pyInt (rpartition '-' current_version).2.2 with
            | some a, some b =>
                if a > b then hsvLoop rest (dictSet dict base_name package)
                else hsvLoop rest dict
            | _, _ => .error .valueError
          else hsvLoop rest dict
      | none => hsvLoop rest (dictSet dict base_name package)

/-- `handle_soname_versions` of merged_drivers.py. -/
def handle_soname_versions (packages : List String) : Except PyErr (List String) :=
  (hsvLoop packages []).map (fun dict => dict.map (·.2))

end merged_drivers

namespace compare_debian_drivers

open Py

/-- Prefix match of the regex `[\d\.]+` (compare_debian_drivers.py line
133): the maximal leading run of ASCII digits and dots, `none` when that
run is empty (`re.match` returns `None`). -/
def reMatchDigitsDots (s : String) : Option String :=
  let p := s.data.takeWhile (fun c => c.isDigit || c = '.')
  if p.isEmpty then none else some ⟨p⟩

/-- `get_debian_version(package_name)` (lines 117-138).  The external
`apt-cache policy` call is an oracle: `none` models a
`subprocess.CalledProcessError` (caught, sentinel), `some lines` the
stdout split into lines.  The code scans for the first line containing
`'Candidate:'`, takes its second whitespace token (`line.split()[1]` —
an uncaught `IndexError` when the token is missing, since the `try`
only catches `CalledProcessError`), and cleans it with the regex. -/
def get_debian_version (aptOut : Option (List String)) : Except PyErr String :=
  match aptOut with
  | none => .ok "Version not found"
  | some lines =>
      match lines.find? (fun line => strContains line "Candidate:") with
      | some line =>
          match (pySplit line).get? 1 with
          | none => .error .indexError
          | some version =>
              match reMatchDigitsDots version with
              | some cleaned => .ok cleaned
              | none => .ok "Version not found"
      | none => .ok "Version not found"

/-- Body of the `try` block of `extract_version_from_changelog`
(lines 149-155), on the changelog's lines: `.ok none` models falling
through when the stripped first line is empty, `.error` models the
`IndexError` from `first_line.split()[1]` when the line has fewer than
two tokens. -/
def extract_try_body (lines : List String) : Except PyErr (Option String) :=
  let first_line := pyStripWs (lines.headD "")
  if first_line ≠ "" then
    match (pySplit first_line).get? 1 with
    | none => .error .indexError
    | some tok => .ok (some (pyStripParens tok))
  else .ok none

/-- `extract_version_from_changelog(changelog_path)` (lines 140-158).
The filesystem is an oracle: `none` models a missing file
(`changelog_path.exists()` false), `some lines` the file's lines.
Every exception inside the `try` is caught and converted to the
sentinel, so the result is a plain `String`. -/
def extract_version_from_changelog : Option (List String) → String
  | none => "Version not found"
  | some lines =>
      match extract_try_body lines with
      | .ok (some version) => version
      | .ok none => "Version not found"
      | .error _ => "Version not found"

/-- The latest commit of a mirror repository, as the embedding sees it:
the calendar date of `committed_datetime` and the 40-character
lowercase-hex `hexsha`.  (Year 1000-9999 is assumed in the theorems; in
that range `strftime('%Y%m%d')` is the plain 4-digit year followed by
the zero-padded month and day.) -/
structure Commit where
  year : Nat
  month : Nat
  day : Nat
  hexsha : String

/-- Two-digit zero-padded decimal rendering (`%m`, `%d`). -/
def format2 (n : Nat) : List Char :=
  [Nat.digitChar (n / 10 % 10), Nat.digitChar (n % 10)]

/-- Four-digit decimal rendering (`%Y` for years 1000-9999). -/
def format4 (n : Nat) : List Char :=
  [Nat.digitChar (n / 1000 % 10), Nat.digitChar (n / 100 % 10),
   Nat.digitChar (n / 10 % 10), Nat.digitChar (n % 10)]

/-- `commit.committed_datetime.strftime('%Y%m%d')`. -/
def formatYMD (c : Commit) : String :=
  ⟨format4 c.year ++ format2 c.month ++ format2 c.day⟩

/-- `calculate_version_from_git_hash(repo_path)` (lines 235-265).  The
git oracle is the repository's latest commit (`none` models any
exception in `git.Repo` / `next(repo.iter_commits(...))`, e.g. an empty
repository — caught, sentinels); the changelog oracle is as in
`extract_version_from_changelog`. -/
def calculate_version_from_git_hash (git : Option Commit) (changelog : Option (List String)) :
    String × String :=
  match git with
  | none => ("Version not found", "Git hash not found")
  | some commit =>
      let commit_date := formatYMD commit
      let git_hash := commit.hexsha
      let base_version := extract_version_from_changelog changelog
      let base_version := if base_version = "Version not found" then "1.0" else base_version
      (base_version ++ "+git" ++ commit_date ++ "." ++ (⟨git_hash.data.take 7⟩ : String),
       git_hash)

/-- `get_latest_git_hash(repo_path)` (lines 171-186): the HEAD commit
hash, with any exception caught and converted to the sentinel.  The
oracle is `some hash` or `none` for a failed lookup. -/
def get_latest_git_hash (headHash : Option String) : String :=
  match headHash with
  | some h => h
  | none => "Git hash not found"

/-- `process_package(package_name)` (lines 188-211).  Oracles: the
`apt-cache policy` stdout, the success flag of `clone_or_update_repo`,
the mirror repo's latest commit, its HEAD hash, and its
`debian/changelog` content.  The first component is the returned value
(`none` models Python's implicit `None` on the clone-failure branch,
`.error` an uncaught exception from `get_debian_version`); the second
collects what `process_package` itself prints on that branch. -/
def process_package (package_name : String) (aptOut : Option (List String))
    (cloneOk : Bool) (git : Option Commit) (headHash : Option String)
    (changelog : Option (List String)) :
    Except PyErr (Option (String × String)) × List String :=
  match get_debian_version aptOut with
  | .error e => (.error e, [])
  | .ok debian_version =>
      if cloneOk then
        if debian_version = "Version not found" then
          (.ok (some (calculate_version_from_git_hash git changelog)), [])
        else
          (.ok (some (debian_version, get_latest_git_hash headHash)), [])
      else
        (.ok none, ["Failed to process " ++ package_name])

/-- The per-driver loop of the `__main__` block (lines 290-298):
`debian_version, debian_git_hash = process_package(driver)` followed by
`driver_results[driver] = {...}`.  Unpacking the `None` returned on a
clone failure raises a `TypeError`, which aborts the whole loop; the
result list is the `driver_results` dict in insertion order. -/
def driver_loop (drivers : List String)
    (resolve : String → Except PyErr (Option (String × String))) :
    Except PyErr (List (String × String × String)) :=
  match drivers with
  | [] => .ok []
  | d :: rest =>
      match resolve d with
      | .error e => .error e
      | .ok none => .error .typeError
      | .ok (some (v, h)) =>
          match driver_loop rest resolve with
          | .error e => .error e
          | .ok tl => .ok ((d, v, h) :: tl)

end compare_debian_drivers

namespace merged_drivers

open Py

/-- `extract_version_from_changelog(changelog_path)` of merged_drivers.py
(lines 80-91), textually the same algorithm as in
compare_debian_drivers.py; same oracle convention. -/
def extract_version_from_changelog : Option (List String) → String
  | none => "Version not found"
  | some lines =>
      match compare_debian_drivers.extract_try_body lines with
      | .ok (some version) => version
      | .ok none => "Version not found"
      | .error _ => "Version not found"

end merged_drivers

/-- Lowercase hexadecimal digit (the alphabet of a git `hexsha`). -/
def isHexLower (c : Char) : Bool := c.isDigit || ('a' ≤ c && c ≤ 'f')

/-- Checker for the specified synthesized-version pattern
`1.0+git\d{8}\.[0-9a-f]{7}` (anchored at both ends). -/
def matchesSynthPattern (s : String) : Bool :=
  (s.data.length == 23) &&
  (s.data.take 7 == "1.0+git".data) &&
  ((s.data.drop 7).take 8).all Char.isDigit &&
  ((s.data.drop 15).take 1 == ['.']) &&
  ((s.data.drop 16).all isHexLower)

/-- A concrete resolver for the driver loop in which the mirror clone of
driver `"a"` fails and everything about driver `"b"` succeeds: the
oracles fed to `process_package` are a package index answering
`Candidate: 1.0-1` for every driver and a clone step that succeeds
exactly for `"b"`. -/
def cloneFailResolver (d : String) : Except PyErr (Option (String × String)) :=
  (compare_debian_drivers.process_package d (some ["  Candidate: 1.0-1"]) (d = "b")
    (some ⟨2024, 5, 7, "0123456789abcdef0123456789abcdef01234567"⟩)
    (some "0123456789abcdef0123456789abcdef01234567") none).1

/-! ## Helper lemmas -/

/-- The three `hsvLoop` transcriptions are the same function. -/
theorem hsvLoop_eq_all (packages : List String) (dict : List (String × String)) :
    compare_debian_drivers.hsvLoop packages dict = indi_dependency_checker.hsvLoop packages dict
      ∧ compare_debian_drivers.hsvLoop packages dict = merged_drivers.hsvLoop packages dict := by
  induction packages generalizing dict with
  | nil => exact ⟨rfl, rfl⟩
  | cons package rest ih =>
      constructor
      · simp only [compare_debian_drivers.hsvLoop, indi_dependency_checker.hsvLoop]
        repeat' first
          | exact (ih _).1
          | rfl
          | split
      · simp only [compare_debian_drivers.hsvLoop, merged_drivers.hsvLoop]
        repeat' first
          | exact (ih _).2
          | rfl
          | split

/-- Unfolding of `extract_version_from_changelog` on a present file. -/
theorem extract_version_eq_body (lines : List String) :
    compare_debian_drivers.extract_version_from_changelog (some lines)
      = match compare_debian_drivers.extract_try_body lines with
        | .ok (some version) => version
        | .ok none => "Version not found"
        | .error _ => "Version not found" := rfl

/-! ## Claims -/

/-- C10: the three definitions of `handle_soname_versions` in
compare_debian_drivers.py, indi_dependency_checker.py and
merged_drivers.py compute the same function: on every input list they
either all return the same output list or all raise the same Python
exception (the `Except PyErr` embedding makes both visible). -/
theorem claim_c10_hsv_equivalent (packages : List String) :
    compare_debian_drivers.handle_soname_versions packages
        = indi_dependency_checker.handle_soname_versions packages
      ∧ compare_debian_drivers.handle_soname_versions packages
        = merged_drivers.handle_soname_versions packages := by
  constructor
  · unfold compare_debian_drivers.handle_soname_versions
      indi_dependency_checker.handle_soname_versions
    rw [(hsvLoop_eq_all packages []).1]
  · unfold compare_debian_drivers.handle_soname_versions merged_drivers.handle_soname_versions
    rw [(hsvLoop_eq_all packages []).2]

/-- C2 (code bug): on the input `["libfoo", "libfoo3", "libbar"]` the
code returns all three names unchanged — `handle_soname_versions` only
splits at the last `-`, so `libfoo` and `libfoo3` get distinct dict
keys and are never collapsed, contradicting the function's own comment
(`libapogee3 > libapogee`) and the claimed result `{libfoo3, libbar}`. -/
theorem claim_c2_eval :
    compare_debian_drivers.handle_soname_versions ["libfoo", "libfoo3", "libbar"]
      = .ok ["libfoo", "libfoo3", "libbar"] := rfl

/-- C5 (code bug): on the input `["libfoo", "libfoo-3"]` the code
raises `ValueError` instead of returning `["libfoo-3"]`: for the second
entry it evaluates `int("libfoo".rpartition('-')[-1]) = int("libfoo")`,
because the stored unsuffixed representative has no numeric tail, so
the "unsuffixed entry counts as suffix 0" rule of the claim is never
implemented. -/
theorem claim_c5_eval :
    compare_debian_drivers.handle_soname_versions ["libfoo", "libfoo-3"]
      = .error PyErr.valueError := rfl

/-- C9: `extract_version_from_changelog` never lets an exception reach
its caller: a missing file, an empty (or whitespace-only) first line,
a first line with fewer than two whitespace tokens (the `IndexError`
case), and in general any exception inside its `try` block, all produce
the sentinel `"Version not found"`; the copy in merged_drivers.py
behaves identically. -/
theorem claim_c9_extract_total :
    compare_debian_drivers.extract_version_from_changelog none = "Version not found"
    ∧ (∀ lines : List String, Py.pyStripWs (lines.headD "") = "" →
        compare_debian_drivers.extract_version_from_changelog (some lines) = "Version not found")
    ∧ (∀ (lines : List String) (e : PyErr),
        compare_debian_drivers.extract_try_body lines = .error e →
        compare_debian_drivers.extract_version_from_changelog (some lines) = "Version not found")
    ∧ (∀ lines : List String, (Py.pySplit (Py.pyStripWs (lines.headD ""))).length < 2 →
        compare_debian_drivers.extract_version_from_changelog (some lines) = "Version not found")
    ∧ (∀ file : Option (List String),
        merged_drivers.extract_version_from_changelog file
          = compare_debian_drivers.extract_version_from_changelog file) := by
  refine ⟨rfl, ?_, ?_, ?_, ?_⟩
  · intro lines h
    simp only [compare_debian_drivers.extract_version_from_changelog,
      compare_debian_drivers.extract_try_body, h]
    simp
  · intro lines e h
    simp only [compare_debian_drivers.extract_version_from_changelog, h]
  · intro lines h
    have hget : (Py.pySplit (Py.pyStripWs (lines.headD ""))).get? 1 = none := by
      rw [List.get?_eq_none]
      omega
    by_cases hne : Py.pyStripWs (lines.headD "") = ""
    · have hbody : compare_debian_drivers.extract_try_body lines = .ok none := by
        simp only [compare_debian_drivers.extract_try_body]
        rw [if_neg (fun hc => hc hne)]
      rw [extract_version_eq_body, hbody]
    · have hbody : compare_debian_drivers.extract_try_body lines = .error PyErr.indexError := by
        simp only [compare_debian_drivers.extract_try_body]
        rw [if_pos hne, hget]
      rw [extract_version_eq_body, hbody]
  · intro file
    cases file <;> rfl

/-- C9 witness: the sentinel comes back at concrete inputs — a
whitespace-only first line and a one-token first line. -/
theorem claim_c9_witness :
    compare_debian_drivers.extract_version_from_changelog (some ["   "]) = "Version not found"
    ∧ compare_debian_drivers.extract_version_from_changelog (some ["onetoken"])
        = "Version not found" :=
  ⟨claim_c9_extract_total.2.1 ["   "] rfl,
   claim_c9_extract_total.2.2.2.1 ["onetoken"] (by decide)⟩

/-- C8: whenever the changelog's stripped first line is nonempty and has
a second whitespace-separated token, `extract_version_from_changelog`
returns that token with leading/trailing parentheses stripped. -/
theorem claim_c8_extract_token (lines : List String) (tok : String)
    (hne : Py.pyStripWs (lines.headD "") ≠ "")
    (hget : (Py.pySplit (Py.pyStripWs (lines.headD ""))).get? 1 = some tok) :
    compare_debian_drivers.extract_version_from_changelog (some lines) = Py.pyStripParens tok := by
  have hbody : compare_debian_drivers.extract_try_body lines = .ok (some (Py.pyStripParens tok)) := by
    simp only [compare_debian_drivers.extract_try_body]
    rw [if_pos hne, hget]
  rw [extract_version_eq_body, hbody]

/-- C8 witness: first line `"foo (2.5-1) unstable; urgency=medium"`
yields `"2.5-1"`. -/
theorem claim_c8_witness :
    compare_debian_drivers.extract_version_from_changelog
      (some ["foo (2.5-1) unstable; urgency=medium"]) = "2.5-1" :=
  (claim_c8_extract_token ["foo (2.5-1) unstable; urgency=medium"] "(2.5-1)"
    (by decide) (by decide)).trans rfl

/-- `takeWhile` walks through a prefix whose elements all satisfy the
predicate. -/
theorem takeWhile_append_all {p : Char → Bool} (l₁ l₂ : List Char)
    (h : ∀ x ∈ l₁, p x = true) :
    (l₁ ++ l₂).takeWhile p = l₁ ++ l₂.takeWhile p := by
  induction l₁ with
  | nil => rfl
  | cons a t ih =>
      simp only [List.cons_append, List.takeWhile_cons, h a (by simp)]
      rw [ih (fun x hx => h x (by simp [hx]))]
      simp

/-- `takeWhile` stops at a failing head. -/
theorem takeWhile_head_false {p : Char → Bool} (l : List Char)
    (h : ∀ c ∈ l.head?, p c = false) : l.takeWhile p = [] := by
  cases l with
  | nil => rfl
  | cons a t => simp [List.takeWhile_cons, h a rfl]

/-- C7: `get_debian_version` on present `apt-cache policy` output: if the
first line containing `Candidate:` has a second whitespace token that
starts with a nonempty run of digits and dots, exactly that prefix is
returned; if no such line exists, or the token does not start with a
digit or dot, the sentinel is returned. -/
theorem claim_c7_get_debian_version :
    (∀ (lines : List String) (line v p r : String),
       lines.find? (fun l => Py.strContains l "Candidate:") = some line →
       (Py.pySplit line).get? 1 = some v →
       v = p ++ r →
       p ≠ "" →
       (∀ c ∈ p.data, (c.isDigit || c = '.') = true) →
       (∀ c ∈ r.data.head?, (c.isDigit || c = '.') = false) →
       compare_debian_drivers.get_debian_version (some lines) = .ok p)
    ∧ (∀ lines : List String,
       lines.find? (fun l => Py.strContains l "Candidate:") = none →
       compare_debian_drivers.get_debian_version (some lines) = .ok "Version not found")
    ∧ (∀ (lines : List String) (line v : String),
       lines.find? (fun l => Py.strContains l "Candidate:") = some line →
       (Py.pySplit line).get? 1 = some v →
       (∀ c ∈ v.data.head?, (c.isDigit || c = '.') = false) →
       compare_debian_drivers.get_debian_version (some lines) = .ok "Version not found") := by
  refine ⟨?_, ?_, ?_⟩
  · intro lines line v p r hfind hget hsplit hne hp hr
    have hdata : v.data = p.data ++ r.data := by rw [hsplit, String.data_append]
    have htake : v.data.takeWhile (fun c => c.isDigit || c = '.') = p.data := by
      rw [hdata, takeWhile_append_all _ _ hp, takeWhile_head_false _ hr, List.append_nil]
    have hmatch : compare_debian_drivers.reMatchDigitsDots v = some p := by
      simp only [compare_debian_drivers.reMatchDigitsDots, htake]
      have hpe : p.data.isEmpty = false := by
        cases hd : p.data with
        | nil => exact absurd (String.ext hd) hne
        | cons a t => rfl
      simp [hpe]
    simp only [compare_debian_drivers.get_debian_version, hfind, hget, hmatch]
  · intro lines hfind
    simp only [compare_debian_drivers.get_debian_version, hfind]
  · intro lines line v hfind hget hv
    have htake : v.data.takeWhile (fun c => c.isDigit || c = '.') = [] :=
      takeWhile_head_false _ hv
    have hmatch : compare_debian_drivers.reMatchDigitsDots v = none := by
      simp [compare_debian_drivers.reMatchDigitsDots, htake]
    simp only [compare_debian_drivers.get_debian_version, hfind, hget, hmatch]

/-- C7 witness: candidate `1.2.3-1build2` yields `1.2.3`; output without
a Candidate line, and a non-numeric candidate, yield the sentinel. -/
theorem claim_c7_witness :
    compare_debian_drivers.get_debian_version
        (some ["Installed: (none)", "  Candidate: 1.2.3-1build2"]) = .ok "1.2.3"
    ∧ compare_debian_drivers.get_debian_version (some ["Unable to locate package"])
        = .ok "Version not found"
    ∧ compare_debian_drivers.get_debian_version (some ["  Candidate: (none)"])
        = .ok "Version not found" :=
  ⟨claim_c7_get_debian_version.1 ["Installed: (none)", "  Candidate: 1.2.3-1build2"]
      "  Candidate: 1.2.3-1build2" "1.2.3-1build2" "1.2.3" "-1build2"
      rfl rfl rfl (by decide) (by decide) (by decide),
   claim_c7_get_debian_version.2.1 ["Unable to locate package"] rfl,
   claim_c7_get_debian_version.2.2 ["  Candidate: (none)"] "  Candidate: (none)" "(none)"
      rfl rfl (by decide)⟩

/-- `Nat.digitChar` of a residue mod 10 is an ASCII digit. -/
theorem digitChar_mod_isDigit (n : Nat) : (Nat.digitChar (n % 10)).isDigit = true := by
  have hlt : n % 10 < 10 := Nat.mod_lt _ (by norm_num)
  have hall : ∀ k, k < 10 → (Nat.digitChar k).isDigit = true := by decide
  exact hall _ hlt

/-- The embedded `strftime('%Y%m%d')` produces eight ASCII digits. -/
theorem formatYMD_spec (c : compare_debian_drivers.Commit) :
    (compare_debian_drivers.formatYMD c).data.length = 8
      ∧ ∀ ch ∈ (compare_debian_drivers.formatYMD c).data, ch.isDigit = true := by
  constructor
  · rfl
  · intro ch hch
    simp only [compare_debian_drivers.formatYMD, compare_debian_drivers.format4,
      compare_debian_drivers.format2, List.cons_append, List.nil_append,
      List.mem_cons, List.not_mem_nil, or_false] at hch
    rcases hch with h | h | h | h | h | h | h | h <;>
      (subst h; exact digitChar_mod_isDigit _)

/-- Strings of the shape `1.0+git` + 8 digits + `.` + 7 lowercase hex
characters satisfy the pattern checker. -/
theorem matchesSynthPattern_build (s : String) (ymd t7 : List Char)
    (hs : s.data = '1' :: '.' :: '0' :: '+' :: 'g' :: 'i' :: 't' :: (ymd ++ '.' :: t7))
    (h8 : ymd.length = 8) (hd : ∀ c ∈ ymd, c.isDigit = true)
    (h7 : t7.length = 7) (hh : ∀ c ∈ t7, isHexLower c = true) :
    matchesSynthPattern s = true := by
  have hdrop7 : s.data.drop 7 = ymd ++ '.' :: t7 := by rw [hs]; rfl
  have hdrop15 : s.data.drop 15 = '.' :: t7 := by
    have : s.data.drop 15 = (s.data.drop 7).drop 8 := by rw [List.drop_drop]
    rw [this, hdrop7, ← h8, List.drop_left]
  have hdrop16 : s.data.drop 16 = t7 := by
    have : s.data.drop 16 = (s.data.drop 15).drop 1 := by rw [List.drop_drop]
    rw [this, hdrop15]
    rfl
  unfold matchesSynthPattern
  simp only [Bool.and_eq_true, beq_iff_eq]
  refine ⟨⟨⟨⟨?_, ?_⟩, ?_⟩, ?_⟩, ?_⟩
  · rw [hs]
    simp [h8, h7]
  · rw [hs]
    rfl
  · rw [hdrop7, ← h8, List.take_left, List.all_eq_true]
    exact hd
  · rw [hdrop15]
    rfl
  · rw [hdrop16, List.all_eq_true]
    exact hh

/-- The character data of the synthesized version string when the
changelog is absent. -/
theorem calc_version_data (commit : compare_debian_drivers.Commit) :
    (compare_debian_drivers.calculate_version_from_git_hash (some commit) none).1.data
      = '1' :: '.' :: '0' :: '+' :: 'g' :: 'i' :: 't'
          :: ((compare_debian_drivers.formatYMD commit).data
              ++ '.' :: commit.hexsha.data.take 7) := by
  show ("1.0" ++ "+git" ++ compare_debian_drivers.formatYMD commit ++ "."
      ++ (⟨commit.hexsha.data.take 7⟩ : String)).data = _
  simp only [String.data_append]
  rfl

/-- C4: when the package index reports no candidate and the mirror
repository has no `debian/changelog`, the resolver synthesizes a version
matching `1.0+git\d{8}\.[0-9a-f]{7}` and pairs it with the full
40-character commit hash (hypotheses: commit year in 1000-9999 so that
`%Y%m%d` is 8 digits, and a 40-character lowercase-hex `hexsha`). -/
theorem claim_c4_synth_version (aptOut : Option (List String))
    (commit : compare_debian_drivers.Commit) (package_name : String) (headHash : Option String)
    (hapt : compare_debian_drivers.get_debian_version aptOut = .ok "Version not found")
    (_hy1 : 1000 ≤ commit.year) (_hy2 : commit.year ≤ 9999)
    (hlen : commit.hexsha.data.length = 40)
    (hhex : ∀ c ∈ commit.hexsha.data, isHexLower c = true) :
    matchesSynthPattern
        (compare_debian_drivers.calculate_version_from_git_hash (some commit) none).1 = true
      ∧ (compare_debian_drivers.calculate_version_from_git_hash (some commit) none).2
          = commit.hexsha
      ∧ (compare_debian_drivers.calculate_version_from_git_hash (some commit) none).2.data.length
          = 40
      ∧ compare_debian_drivers.process_package package_name aptOut true (some commit) headHash none
          = (.ok (some (compare_debian_drivers.calculate_version_from_git_hash
              (some commit) none)), []) := by
  refine ⟨?_, rfl, hlen, ?_⟩
  · refine matchesSynthPattern_build _ (compare_debian_drivers.formatYMD commit).data
      (commit.hexsha.data.take 7) (calc_version_data commit) (formatYMD_spec commit).1
      (formatYMD_spec commit).2 ?_ ?_
    · rw [List.length_take, hlen]
      rfl
    · intro c hc
      exact hhex c (List.take_subset _ _ hc)
  · simp only [compare_debian_drivers.process_package, hapt]
    rfl

/-- C4 witness: a concrete commit of 2024-05-07 with a concrete hash. -/
theorem claim_c4_witness :
    matchesSynthPattern
        (compare_debian_drivers.calculate_version_from_git_hash
          (some ⟨2024, 5, 7, "0123456789abcdef0123456789abcdef01234567"⟩) none).1 = true
      ∧ (compare_debian_drivers.calculate_version_from_git_hash
          (some ⟨2024, 5, 7, "0123456789abcdef0123456789abcdef01234567"⟩) none).2
          = "0123456789abcdef0123456789abcdef01234567" :=
  have h := claim_c4_synth_version (some ["  Candidate: (none)"])
    ⟨2024, 5, 7, "0123456789abcdef0123456789abcdef01234567"⟩ "indi-asi" none
    rfl (by norm_num) (by norm_num) rfl (by decide)
  ⟨h.1, h.2.1⟩

/-- C1 counterexample: with driver `"a"` failing to clone and driver
`"b"` resolving fine, the main loop does NOT omit `"a"` and keep `"b"`:
unpacking the `None` returned by `process_package("a")` raises a
`TypeError`, so no report at all is produced — driver `"b"` is affected. -/
theorem claim_c1_counterexample :
    compare_debian_drivers.driver_loop ["a", "b"] cloneFailResolver = .error PyErr.typeError
    ∧ compare_debian_drivers.driver_loop ["a", "b"] cloneFailResolver
        ≠ .ok [("b", "1.0", "0123456789abcdef0123456789abcdef01234567")] :=
  ⟨rfl, fun h => Except.noConfusion h⟩

/-- C1 (amended): when `clone_or_update_repo` fails for a driver (and
`get_debian_version` itself returned normally), `process_package` prints
`"Failed to process <driver_name>"` and returns `None` — no
`(version, git_hash)` record.  But the driver is not merely omitted:
back in the main loop, the tuple unpacking of that `None` raises a
`TypeError`, so the run aborts, the drivers after the failed one are
never processed, and no report mapping is produced at all. -/
theorem claim_c1_clone_failure (package_name : String) (aptOut : Option (List String))
    (git : Option compare_debian_drivers.Commit) (headHash : Option String)
    (changelog : Option (List String)) (dv : String)
    (hapt : compare_debian_drivers.get_debian_version aptOut = .ok dv) :
    compare_debian_drivers.process_package package_name aptOut false git headHash changelog
        = (.ok none, ["Failed to process " ++ package_name])
    ∧ ∀ (pre post : List String)
        (resolve : String → Except PyErr (Option (String × String))),
        (∀ d ∈ pre, ∃ rec, resolve d = .ok (some rec)) →
        resolve package_name = .ok none →
        compare_debian_drivers.driver_loop (pre ++ package_name :: post) resolve
          = .error PyErr.typeError := by
  constructor
  · simp only [compare_debian_drivers.process_package, hapt]
    rfl
  · intro pre post resolve hpre hfail
    induction pre with
    | nil =>
        simp only [List.nil_append, compare_debian_drivers.driver_loop, hfail]
    | cons d pre ih =>
        obtain ⟨rec, hrec⟩ := hpre d (by simp)
        have htl := ih (fun x hx => hpre x (by simp [hx]))
        simp only [List.cons_append, compare_debian_drivers.driver_loop, hrec,
          List.append_eq, htl]

/-- C1 witness: the concrete two-driver run of the counterexample,
through the amended theorem. -/
theorem claim_c1_witness :
    compare_debian_drivers.process_package "a" (some ["  Candidate: 1.0-1"]) false
        (some ⟨2024, 5, 7, "0123456789abcdef0123456789abcdef01234567"⟩)
        (some "0123456789abcdef0123456789abcdef01234567") none
        = (.ok none, ["Failed to process a"])
    ∧ compare_debian_drivers.driver_loop (["b"] ++ "a" :: []) cloneFailResolver
        = .error PyErr.typeError := by
  have h := claim_c1_clone_failure "a" (some ["  Candidate: 1.0-1"])
    (some ⟨2024, 5, 7, "0123456789abcdef0123456789abcdef01234567"⟩)
    (some "0123456789abcdef0123456789abcdef01234567") none "1.0" rfl
  refine ⟨h.1, h.2 ["b"] [] cloneFailResolver ?_ rfl⟩
  intro d hd
  rw [List.mem_singleton] at hd
  subst hd
  exact ⟨("1.0", "0123456789abcdef0123456789abcdef01234567"), rfl⟩

/-! ## Kahn loop: basic lemmas -/

/-- `List.contains` in terms of membership (`String` has lawful `BEq`). -/
theorem contains_eq (l : List String) (a : String) : l.contains a = decide (a ∈ l) := by
  simp [List.contains, List.elem_eq_mem]

/-- Membership in an adjacency list of the built dependency graph. -/
theorem mem_graphFn (packages : List String) (deps : String → List String) (d p : String) :
    p ∈ indi_dependency_checker.graphFn packages deps d
      ↔ d ∈ packages ∧ p ∈ packages ∧ d ∈ deps p := by
  unfold indi_dependency_checker.graphFn
  rw [contains_eq]
  by_cases hd : d ∈ packages
  · simp only [hd, decide_True, if_true, List.mem_flatten, List.mem_map, true_and]
    constructor
    · rintro ⟨l, ⟨q, hq, rfl⟩, hpl⟩
      rw [List.mem_replicate] at hpl
      obtain ⟨hn, rfl⟩ := hpl
      exact ⟨hq, List.count_pos_iff.1 (Nat.pos_of_ne_zero hn)⟩
    · rintro ⟨hp, hdep⟩
      refine ⟨List.replicate ((deps p).count d) p, ⟨p, hp, rfl⟩, ?_⟩
      rw [List.mem_replicate]
      have h0 : 0 < (deps p).count d := List.count_pos_iff.2 hdep
      exact ⟨by omega, rfl⟩
  · simp [hd]

/-- Sum of per-package replicate counts, for `count_graphFn`. -/
theorem sum_count_replicate (deps : String → List String) (d p : String) (l : List String) :
    (l.map (fun q => (List.replicate ((deps q).count d) q).count p)).sum
      = l.count p * (deps p).count d := by
  induction l with
  | nil => simp
  | cons q rest ih =>
      rw [List.map_cons, List.sum_cons, ih, List.count_cons, List.count_replicate]
      by_cases hqp : q = p
      · subst hqp
        simp
        ring
      · have h1 : (q == p) = false := by simp [hqp]
        simp [h1]

/-- Multiplicity of a package in an adjacency list of the graph. -/
theorem count_graphFn (packages : List String) (deps : String → List String) (d p : String)
    (hd : d ∈ packages) :
    (indi_dependency_checker.graphFn packages deps d).count p
      = packages.count p * (deps p).count d := by
  unfold indi_dependency_checker.graphFn
  rw [contains_eq]
  simp only [hd, decide_True, if_true]
  rw [List.count_flatten, List.map_map]
  exact sum_count_replicate deps d p packages

/-- Length of an adjacency list of the graph. -/
theorem length_graphFn (packages : List String) (deps : String → List String) (d : String)
    (hd : d ∈ packages) :
    (indi_dependency_checker.graphFn packages deps d).length
      = (packages.map (fun p => (deps p).count d)).sum := by
  unfold indi_dependency_checker.graphFn
  rw [contains_eq]
  simp only [hd, decide_True, if_true]
  rw [List.length_flatten, List.map_map]
  have hc : (List.length ∘ fun q => List.replicate ((deps q).count d) q)
      = fun q => (deps q).count d := by
    funext q
    simp
  rw [hc]

/-- Final indegrees after one neighbour sweep: each occurrence in the
adjacency list decrements. -/
theorem processNeighbors_fst (ns : List String) :
    ∀ (indeg : String → Int) (queue : List String) (x : String),
      (indi_dependency_checker.processNeighbors indeg queue ns).1 x
        = indeg x - ns.count x := by
  induction ns with
  | nil =>
      intro indeg queue x
      simp [indi_dependency_checker.processNeighbors]
  | cons n ns ih =>
      intro indeg queue x
      simp only [indi_dependency_checker.processNeighbors]
      rw [ih]
      by_cases hx : x = n
      · subst hx
        rw [if_pos rfl, List.count_cons]
        simp only [beq_self_eq_true, if_true]
        push_cast
        ring
      · rw [if_neg hx, List.count_cons]
        have hne : (n == x) = false := by
          simp only [beq_eq_false_iff_ne, ne_eq]
          exact fun h => hx h.symm
        simp [hne]

/-- Queue growth after one neighbour sweep: the queue is extended by a
duplicate-free batch `new`, and `x` is enqueued exactly when its
indegree was positive on entry and the sweep drives it to zero or
below (i.e. it hits exactly zero at one of its occurrences). -/
theorem processNeighbors_snd (ns : List String) :
    ∀ (indeg : String → Int) (queue : List String),
      ∃ new : List String,
        (indi_dependency_checker.processNeighbors indeg queue ns).2 = queue ++ new
        ∧ new.Nodup
        ∧ ∀ x, x ∈ new ↔ (1 ≤ indeg x ∧ indeg x ≤ (ns.count x : Int)) := by
  induction ns with
  | nil =>
      intro indeg queue
      refine ⟨[], by simp [indi_dependency_checker.processNeighbors], List.nodup_nil, ?_⟩
      intro x
      simp only [List.not_mem_nil, List.count_nil, Nat.cast_zero, false_iff]
      omega
  | cons n ns ih =>
      intro indeg queue
      obtain ⟨new', h2, hnd, hch⟩ := ih (fun x => if x = n then indeg x - 1 else indeg x)
        (if (if n = n then indeg n - 1 else indeg n) = 0 then queue ++ [n] else queue)
      have hstep : (indi_dependency_checker.processNeighbors indeg queue (n :: ns)).2
          = (indi_dependency_checker.processNeighbors
              (fun x => if x = n then indeg x - 1 else indeg x)
              (if (if n = n then indeg n - 1 else indeg n) = 0 then queue ++ [n] else queue)
              ns).2 := rfl
      rw [if_pos rfl] at h2 hstep
      by_cases hz : indeg n - 1 = 0
      · refine ⟨n :: new', ?_, ?_, ?_⟩
        · rw [hstep, h2, if_pos hz, List.append_assoc]
          rfl
        · rw [List.nodup_cons]
          refine ⟨fun hmem => ?_, hnd⟩
          have := (hch n).1 hmem
          rw [if_pos rfl] at this
          omega
        · intro x
          by_cases hx : x = n
          · subst hx
            simp only [List.mem_cons, true_or, true_iff, List.count_cons,
              beq_self_eq_true, if_true]
            push_cast
            omega
          · have hbx : (n == x) = false := by
              simp only [beq_eq_false_iff_ne, ne_eq]
              exact fun h => hx h.symm
            rw [List.count_cons]
            simp only [List.mem_cons, hx, false_or, hbx, if_false, Nat.add_zero]
            rw [hch x, if_neg hx]
            simp
      · refine ⟨new', ?_, hnd, ?_⟩
        · rw [hstep, h2, if_neg hz]
        · intro x
          by_cases hx : x = n
          · subst hx
            rw [hch x, if_pos rfl, List.count_cons]
            simp only [beq_self_eq_true, if_true]
            push_cast
            omega
          · have hbx : (n == x) = false := by
              simp only [beq_eq_false_iff_ne, ne_eq]
              exact fun h => hx h.symm
            rw [hch x, if_neg hx, List.count_cons]
            simp [hbx]

/-- Extending the dequeued set by one fresh package `pkg` removes from
each "pending dependency" filter exactly the occurrences of `pkg`. -/
theorem filter_not_mem_snoc (acc : List String) (pkg : String) (hp : pkg ∉ acc)
    (l : List String) :
    (l.filter (fun d => decide (d ∉ acc ++ [pkg]))).length + l.count pkg
      = (l.filter (fun d => decide (d ∉ acc))).length := by
  induction l with
  | nil => simp
  | cons a t ih =>
      simp only [List.filter_cons, List.count_cons]
      by_cases hapkg : a = pkg
      · subst hapkg
        rw [if_neg (by simp : ¬(decide (a ∉ acc ++ [a]) = true)),
          if_pos (decide_eq_true hp),
          if_pos (by simp : (a == a) = true)]
        simp only [List.length_cons]
        omega
      · have hb : ¬((a == pkg) = true) := by simp [hapkg]
        rw [if_neg hb]
        by_cases hacc : a ∈ acc
        · rw [if_neg (by simp [hacc] : ¬(decide (a ∉ acc ++ [pkg]) = true)),
            if_neg (by simp [hacc] : ¬(decide (a ∉ acc) = true))]
          omega
        · rw [if_pos (by simp [hacc, hapkg] : decide (a ∉ acc ++ [pkg]) = true),
            if_pos (by simp [hacc] : decide (a ∉ acc) = true)]
          simp only [List.length_cons]
          omega

/-- The invariant holds at loop entry. -/
theorem Inv_init (packages : List String) (deps : String → List String)
    (hnd : packages.Nodup) :
    indi_dependency_checker.Inv packages deps (indi_dependency_checker.indeg0 packages deps)
      (packages.filter (fun p => indi_dependency_checker.indeg0 packages deps p = 0)) [] := by
  refine ⟨?_, ?_, ?_, ?_, ?_⟩
  · simpa using hnd.filter _
  · intro x hx
    rw [List.nil_append] at hx
    exact (List.mem_filter.1 hx).1
  · intro p
    unfold indi_dependency_checker.indeg0
    by_cases hp : p ∈ packages
    · rw [if_pos hp]
      have hc : packages.count p = 1 := List.count_eq_one_of_mem hnd hp
      have hf : (indi_dependency_checker.inDeps packages deps p).filter
            (fun d => decide (d ∉ ([] : List String)))
          = indi_dependency_checker.inDeps packages deps p := by
        rw [List.filter_eq_self]
        intro a _
        simp
      rw [hf, hc, one_mul]
    · rw [if_neg hp]
      have hc : packages.count p = 0 := List.count_eq_zero_of_not_mem hp
      rw [hc]
      simp
  · intro p hp
    have hc : packages.count p = 1 := List.count_eq_one_of_mem hnd hp
    rw [List.nil_append]
    constructor
    · intro hq d hd
      have h0 : indi_dependency_checker.indeg0 packages deps p = 0 := by
        have := (List.mem_filter.1 hq).2
        simpa using this
      unfold indi_dependency_checker.indeg0 at h0
      rw [hc, one_mul] at h0
      have hlen : (indi_dependency_checker.inDeps packages deps p).length = 0 := by
        exact_mod_cast h0
      rw [List.length_eq_zero] at hlen
      rw [hlen] at hd
      simp at hd
    · intro hall
      rw [List.mem_filter]
      refine ⟨hp, ?_⟩
      have hnil : indi_dependency_checker.inDeps packages deps p = [] := by
        rw [List.eq_nil_iff_forall_not_mem]
        intro a ha
        exact absurd (hall a ha) (List.not_mem_nil a)
      unfold indi_dependency_checker.indeg0
      rw [hc, one_mul, hnil]
      simp
  · intro i hi
    simp at hi

/-- One iteration of the Kahn loop preserves the invariant: the head of
the queue is dequeued into `acc` and its out-neighbours are decremented,
enqueueing those that reach indegree zero. -/
theorem Inv_step (packages : List String) (deps : String → List String) (hnd : packages.Nodup)
    (indeg : String → Int) (pkg : String) (rest acc : List String)
    (h : indi_dependency_checker.Inv packages deps indeg (pkg :: rest) acc) :
    indi_dependency_checker.Inv packages deps
      (indi_dependency_checker.processNeighbors indeg rest
        (indi_dependency_checker.graphFn packages deps pkg)).1
      (indi_dependency_checker.processNeighbors indeg rest
        (indi_dependency_checker.graphFn packages deps pkg)).2
      (acc ++ [pkg]) := by
  obtain ⟨hA1, hA2, hB, hC, hE⟩ := h
  have hpkgmem : pkg ∈ packages := hA2 pkg (by simp)
  have hnd3 := List.nodup_append.1 hA1
  have hdisj : acc.Disjoint (pkg :: rest) := hnd3.2.2
  have hpkg_acc : pkg ∉ acc := fun hmem => hdisj hmem (by simp)
  obtain ⟨new, hq2, hnewnd, hnewch⟩ :=
    processNeighbors_snd (indi_dependency_checker.graphFn packages deps pkg) indeg rest
  have hfst : ∀ x, (indi_dependency_checker.processNeighbors indeg rest
      (indi_dependency_checker.graphFn packages deps pkg)).1 x
        = indeg x - ((indi_dependency_checker.graphFn packages deps pkg).count x : Int) :=
    fun x => processNeighbors_fst _ _ _ x
  have hcontains : (fun d => packages.contains d) pkg = true := by
    simp [contains_eq, hpkgmem]
  have hcnt : ∀ p ∈ packages, ((indi_dependency_checker.graphFn packages deps pkg).count p : Int)
      = ((indi_dependency_checker.inDeps packages deps p).count pkg : Int) := by
    intro p hp
    rw [count_graphFn packages deps pkg p hpkgmem, List.count_eq_one_of_mem hnd hp, one_mul,
      indi_dependency_checker.inDeps, List.count_filter hcontains]
  have hnew_pkgmem : ∀ x ∈ new, x ∈ packages := by
    intro x hx
    by_contra hxp
    have h1 := ((hnewch x).1 hx).1
    rw [hB x, if_neg hxp] at h1
    omega
  have hnew_fresh : ∀ x ∈ new, x ∉ acc ++ pkg :: rest := by
    intro x hx hmem
    have hxp := hnew_pkgmem x hx
    have hseen := (hC x hxp).1 hmem
    have h1 := ((hnewch x).1 hx).1
    rw [hB x, if_pos hxp] at h1
    have hfe : (indi_dependency_checker.inDeps packages deps x).filter
        (fun d => decide (d ∉ acc)) = [] := by
      rw [List.filter_eq_nil_iff]
      intro a ha
      simp [hseen a ha]
    rw [hfe] at h1
    simp at h1
  have hql : (acc ++ [pkg]) ++ (indi_dependency_checker.processNeighbors indeg rest
      (indi_dependency_checker.graphFn packages deps pkg)).2
        = (acc ++ pkg :: rest) ++ new := by
    rw [hq2, List.append_assoc, List.append_assoc]
    rfl
  refine ⟨?_, ?_, ?_, ?_, ?_⟩
  · rw [hql, List.nodup_append]
    exact ⟨hA1, hnewnd, fun a ha hanew => hnew_fresh a hanew ha⟩
  · intro x hx
    rw [hql] at hx
    rcases List.mem_append.1 hx with hold | hnewm
    · exact hA2 x hold
    · exact hnew_pkgmem x hnewm
  · intro p
    rw [hfst p, hB p]
    by_cases hp : p ∈ packages
    · rw [if_pos hp, if_pos hp]
      have key := filter_not_mem_snoc acc pkg hpkg_acc (indi_dependency_checker.inDeps packages deps p)
      have hc2 := hcnt p hp
      omega
    · rw [if_neg hp, if_neg hp]
      have hz : (indi_dependency_checker.graphFn packages deps pkg).count p = 0 :=
        List.count_eq_zero_of_not_mem
          (fun hmem => hp ((mem_graphFn packages deps pkg p).1 hmem).2.1)
      rw [hz]
      simp
  · intro p hp
    constructor
    · intro hmem d hd
      rw [hql] at hmem
      rcases List.mem_append.1 hmem with hold | hnewm
      · exact List.mem_append.2 (Or.inl ((hC p hp).1 hold d hd))
      · have hch := (hnewch p).1 hnewm
        have key := filter_not_mem_snoc acc pkg hpkg_acc
          (indi_dependency_checker.inDeps packages deps p)
        have hc2 := hcnt p hp
        have hB2 := hB p
        rw [if_pos hp] at hB2
        have hlen1 : ((indi_dependency_checker.inDeps packages deps p).filter
            (fun d => decide (d ∉ acc ++ [pkg]))).length = 0 := by omega
        rw [List.length_eq_zero, List.filter_eq_nil_iff] at hlen1
        have hd2 := hlen1 d hd
        by_contra hc
        exact hd2 (decide_eq_true hc)
    · intro hall
      by_cases hallacc : ∀ d ∈ indi_dependency_checker.inDeps packages deps p, d ∈ acc
      · have hold := (hC p hp).2 hallacc
        rw [hql]
        exact List.mem_append.2 (Or.inl hold)
      · push_neg at hallacc
        obtain ⟨d0, hd0, hd0acc⟩ := hallacc
        have hd0pkg : d0 = pkg := by
          have hmem := hall d0 hd0
          rcases List.mem_append.1 hmem with hmem | hmem
          · exact absurd hmem hd0acc
          · simpa using hmem
        rw [hd0pkg] at hd0
        have hB2 := hB p
        rw [if_pos hp] at hB2
        have key := filter_not_mem_snoc acc pkg hpkg_acc
          (indi_dependency_checker.inDeps packages deps p)
        have hc2 := hcnt p hp
        have hmemf : pkg ∈ (indi_dependency_checker.inDeps packages deps p).filter
            (fun d => decide (d ∉ acc)) := by
          rw [List.mem_filter]
          exact ⟨hd0, by simpa using hpkg_acc⟩
        have hpos := List.length_pos_of_mem hmemf
        have hlen1 : ((indi_dependency_checker.inDeps packages deps p).filter
            (fun d => decide (d ∉ acc ++ [pkg]))).length = 0 := by
          rw [List.length_eq_zero, List.filter_eq_nil_iff]
          intro a ha
          have hmem2 := hall a ha
          exact fun hdec => (of_decide_eq_true hdec) hmem2
        have hmem_new : p ∈ new := (hnewch p).2 (by constructor <;> omega)
        rw [hql]
        exact List.mem_append.2 (Or.inr hmem_new)
  · intro i hi d hd
    by_cases hia : i < acc.length
    · have hget : (acc ++ [pkg]).get ⟨i, hi⟩ = acc.get ⟨i, hia⟩ := List.get_append i hia
      rw [hget] at hd
      rw [List.take_append_of_le_length (by omega)]
      exact hE i hia d hd
    · have hieq : i = acc.length := by
        have := hi
        simp only [List.length_append, List.length_singleton] at this
        omega
      subst hieq
      have hget : (acc ++ [pkg]).get ⟨acc.length, hi⟩ = pkg := by
        have := List.getElem_concat_length acc pkg acc.length rfl (by simpa using hi)
        simpa [List.get_eq_getElem] using this
      rw [hget] at hd
      have hda : d ∈ acc := (hC pkg hpkgmem).1 (by simp) d hd
      rw [List.take_left]
      exact hda

/-- Under the invariant's indegree characterization the fuel measure is
a sum of pending-dependency counts. -/
theorem sumIndeg_eq (packages : List String) (deps : String → List String)
    (indeg : String → Int) (acc : List String)
    (hB : ∀ p, indeg p = if p ∈ packages
        then (((indi_dependency_checker.inDeps packages deps p).filter
          (fun d => decide (d ∉ acc))).length : Int)
        else 0) :
    indi_dependency_checker.sumIndeg packages indeg
      = (packages.map (fun p => ((indi_dependency_checker.inDeps packages deps p).filter
          (fun d => decide (d ∉ acc))).length)).sum := by
  unfold indi_dependency_checker.sumIndeg
  congr 1
  apply List.map_congr_left
  intro p hp
  rw [hB p, if_pos hp, Int.toNat_natCast]

/-- Dequeuing `pkg` lowers the total pending-dependency count by exactly
the length of `pkg`'s adjacency list. -/
theorem sum_len_split (packages : List String) (deps : String → List String)
    (acc : List String) (pkg : String) (hnd : packages.Nodup)
    (hpkg : pkg ∈ packages) (hpa : pkg ∉ acc) :
    (packages.map (fun p => ((indi_dependency_checker.inDeps packages deps p).filter
        (fun d => decide (d ∉ acc))).length)).sum
      = (packages.map (fun p => ((indi_dependency_checker.inDeps packages deps p).filter
          (fun d => decide (d ∉ acc ++ [pkg]))).length)).sum
        + (indi_dependency_checker.graphFn packages deps pkg).length := by
  rw [length_graphFn packages deps pkg hpkg, ← List.sum_map_add]
  congr 1
  apply List.map_congr_left
  intro p _
  have key := filter_not_mem_snoc acc pkg hpa (indi_dependency_checker.inDeps packages deps p)
  have hcnt : (indi_dependency_checker.inDeps packages deps p).count pkg
      = (deps p).count pkg := by
    rw [indi_dependency_checker.inDeps,
      List.count_filter (by simp [contains_eq, hpkg] :
        (fun d => packages.contains d) pkg = true)]
  omega

/-- Running the fueled Kahn loop from an invariant state with enough
fuel drains the queue completely and ends in an invariant state with an
empty queue (in particular the fuel never runs out mid-loop, so the
embedding computes what the unbounded `while queue:` loop computes). -/
theorem kahnLoop_run (packages : List String) (deps : String → List String)
    (hnd : packages.Nodup) :
    ∀ (fuel : Nat) (indeg : String → Int) (queue acc : List String),
      indi_dependency_checker.Inv packages deps indeg queue acc →
      queue.length + indi_dependency_checker.sumIndeg packages indeg ≤ fuel →
      ∃ indegF : String → Int,
        indi_dependency_checker.Inv packages deps indegF []
          (indi_dependency_checker.kahnLoop (indi_dependency_checker.graphFn packages deps)
            fuel indeg queue acc) := by
  intro fuel
  induction fuel with
  | zero =>
      intro indeg queue acc hInv hle
      have hq : queue = [] := by
        rw [← List.length_eq_zero]
        omega
      subst hq
      exact ⟨indeg, by simpa [indi_dependency_checker.kahnLoop] using hInv⟩
  | succ fuel ih =>
      intro indeg queue acc hInv hle
      cases queue with
      | nil => exact ⟨indeg, by simpa [indi_dependency_checker.kahnLoop] using hInv⟩
      | cons pkg rest =>
          have hstep := Inv_step packages deps hnd indeg pkg rest acc hInv
          obtain ⟨hA1, hA2, hB, hC, hE⟩ := hInv
          have hpkgmem : pkg ∈ packages := hA2 pkg (by simp)
          have hpkg_acc : pkg ∉ acc := by
            have hdisj := (List.nodup_append.1 hA1).2.2
            exact fun hmem => hdisj hmem (by simp)
          obtain ⟨new, hq2, hnewnd, hnewch⟩ :=
            processNeighbors_snd (indi_dependency_checker.graphFn packages deps pkg) indeg rest
          have hSold := sumIndeg_eq packages deps indeg acc hB
          have hSnew := sumIndeg_eq packages deps
            (indi_dependency_checker.processNeighbors indeg rest
              (indi_dependency_checker.graphFn packages deps pkg)).1
            (acc ++ [pkg]) hstep.2.2.1
          have hsplit := sum_len_split packages deps acc pkg hnd hpkgmem hpkg_acc
          have hnsub : ∀ x ∈ new, x ∈ indi_dependency_checker.graphFn packages deps pkg := by
            intro x hx
            have hch := (hnewch x).1 hx
            have hcpos : 0 < (indi_dependency_checker.graphFn packages deps pkg).count x := by
              omega
            exact List.count_pos_iff.1 hcpos
          have hlennew : new.length
              ≤ (indi_dependency_checker.graphFn packages deps pkg).length := by
            calc new.length = new.toFinset.card := (List.toFinset_card_of_nodup hnewnd).symm
              _ ≤ (indi_dependency_checker.graphFn packages deps pkg).toFinset.card :=
                  Finset.card_le_card
                    (fun x hx => List.mem_toFinset.2 (hnsub x (List.mem_toFinset.1 hx)))
              _ ≤ _ := List.toFinset_card_le _
          have hmeas : (indi_dependency_checker.processNeighbors indeg rest
                (indi_dependency_checker.graphFn packages deps pkg)).2.length
              + indi_dependency_checker.sumIndeg packages
                (indi_dependency_checker.processNeighbors indeg rest
                  (indi_dependency_checker.graphFn packages deps pkg)).1 ≤ fuel := by
            rw [hq2, List.length_append, hSnew]
            simp only [List.length_cons] at hle
            rw [hSold, hsplit] at hle
            omega
          have hrun := ih (indi_dependency_checker.processNeighbors indeg rest
              (indi_dependency_checker.graphFn packages deps pkg)).1
            (indi_dependency_checker.processNeighbors indeg rest
              (indi_dependency_checker.graphFn packages deps pkg)).2
            (acc ++ [pkg]) hstep hmeas
          simpa [indi_dependency_checker.kahnLoop] using hrun

/-- The final invariant state of `sort_packages_by_dependencies`. -/
theorem sort_final (packages : List String) (deps : String → List String)
    (hnd : packages.Nodup) :
    ∃ indegF : String → Int,
      indi_dependency_checker.Inv packages deps indegF []
        (indi_dependency_checker.sort_packages_by_dependencies packages deps) := by
  have hinit := Inv_init packages deps hnd
  have hrun := kahnLoop_run packages deps hnd
    ((packages.filter (fun p => indi_dependency_checker.indeg0 packages deps p = 0)).length
      + indi_dependency_checker.sumIndeg packages (indi_dependency_checker.indeg0 packages deps))
    (indi_dependency_checker.indeg0 packages deps)
    (packages.filter (fun p => indi_dependency_checker.indeg0 packages deps p = 0))
    [] hinit (le_refl _)
  simpa [indi_dependency_checker.sort_packages_by_dependencies] using hrun

/-- If every member of a nonempty set has a predecessor inside the set,
chains inside the set can be extended to any length. -/
theorem exists_chain_in (R : List String) (edge : String → String → Prop)
    (hne : R ≠ []) (hpred : ∀ p ∈ R, ∃ d ∈ R, edge d p) :
    ∀ n : Nat, ∃ l : List String, l.length = n + 1 ∧ (∀ x ∈ l, x ∈ R) ∧ l.Chain' edge := by
  intro n
  induction n with
  | zero =>
      obtain ⟨r, hr⟩ := List.exists_mem_of_ne_nil R hne
      exact ⟨[r], rfl, by simp [hr], by simp⟩
  | succ n ihn =>
      obtain ⟨l, hlen, hmem, hchain⟩ := ihn
      cases l with
      | nil => simp at hlen
      | cons hd t =>
          obtain ⟨d, hdR, hedge⟩ := hpred hd (hmem hd (by simp))
          refine ⟨d :: hd :: t, ?_, ?_, ?_⟩
          · simp only [List.length_cons] at hlen ⊢
            omega
          · intro x hx
            rcases List.mem_cons.1 hx with rfl | hx2
            · exact hdR
            · exact hmem x hx2
          · rw [List.chain'_cons]
            exact ⟨hedge, hchain⟩

/-- A list that is not duplicate-free splits around a repeated element. -/
theorem dup_decomp (l : List String) (hnd : ¬ l.Nodup) :
    ∃ (x : String) (l₁ l₂ l₃ : List String), l = l₁ ++ x :: (l₂ ++ x :: l₃) := by
  induction l with
  | nil => simp at hnd
  | cons a t ih =>
      by_cases ha : a ∈ t
      · obtain ⟨s, u, hsu⟩ := List.append_of_mem ha
        exact ⟨a, [], s, u, by simp [hsu]⟩
      · have hnt : ¬ t.Nodup := fun h => hnd (List.nodup_cons.2 ⟨ha, h⟩)
        obtain ⟨x, l₁, l₂, l₃, rfl⟩ := ih hnt
        exact ⟨x, a :: l₁, l₂, l₃, rfl⟩

/-- A duplicate-free list included in `B` is no longer than `B`. -/
theorem nodup_subset_length (l B : List String) (hnd : l.Nodup) (hsub : ∀ x ∈ l, x ∈ B) :
    l.length ≤ B.length := by
  calc l.length = l.toFinset.card := (List.toFinset_card_of_nodup hnd).symm
    _ ≤ B.toFinset.card :=
        Finset.card_le_card (fun x hx => List.mem_toFinset.2 (hsub x (List.mem_toFinset.1 hx)))
    _ ≤ B.length := List.toFinset_card_le _

/-- A repeated element inside an edge chain yields a cycle. -/
theorem cycle_of_dup_chain (edge : String → String → Prop) (x : String) (l₁ l₂ l₃ : List String)
    (hchain : (l₁ ++ x :: (l₂ ++ x :: l₃)).Chain' edge) :
    indi_dependency_checker.IsCycle edge (x :: l₂) := by
  have h1 : (x :: (l₂ ++ x :: l₃)).Chain' edge := (List.chain'_append.1 hchain).2.1
  have h2 : ((x :: l₂) ++ (x :: l₃)).Chain' edge := by
    have heq : (x :: l₂) ++ (x :: l₃) = x :: (l₂ ++ x :: l₃) := by simp
    rw [heq]
    exact h1
  have h3 := List.chain'_append.1 h2
  have h4 : ((x :: l₂) ++ [x]).Chain' edge := by
    rw [List.chain'_append]
    refine ⟨h3.1, by simp, ?_⟩
    intro a ha b hb
    simp only [List.head?_cons, Option.mem_def, Option.some_inj] at hb
    subst hb
    exact h3.2.2 a ha x (by simp)
  show List.Chain edge x (l₂ ++ [x])
  have heq2 : (x :: l₂) ++ [x] = x :: (l₂ ++ [x]) := by simp
  rw [heq2] at h4
  exact h4

/-- Every element of a chain has a predecessor among the chain's nodes. -/
theorem chain_pred (edge : String → String → Prop) :
    ∀ (l : List String) (a : String), List.Chain edge a l → ∀ p ∈ l, ∃ d ∈ a :: l, edge d p := by
  intro l
  induction l with
  | nil =>
      intro a _ p hp
      simp at hp
  | cons b t ih =>
      intro a hchain p hp
      rw [List.chain_cons] at hchain
      rcases List.mem_cons.1 hp with rfl | hpt
      · exact ⟨a, by simp, hchain.1⟩
      · obtain ⟨d, hd, he⟩ := ih b hchain.2 p hpt
        exact ⟨d, List.mem_cons.2 (Or.inr hd), he⟩

/-- Every member of a cycle has a predecessor inside the cycle. -/
theorem cycle_mem_pred (edge : String → String → Prop) (l : List String)
    (hcyc : indi_dependency_checker.IsCycle edge l) (p : String) (hp : p ∈ l) :
    ∃ d ∈ l, edge d p := by
  cases l with
  | nil => simp at hp
  | cons x xs =>
      have hchain : List.Chain edge x (xs ++ [x]) := hcyc
      have hshrink : ∀ d, d ∈ x :: (xs ++ [x]) → d ∈ x :: xs := by
        intro d hd
        rcases List.mem_cons.1 hd with rfl | hd2
        · simp
        · rcases List.mem_append.1 hd2 with h | h
          · exact List.mem_cons.2 (Or.inr h)
          · simp only [List.mem_singleton] at h
            subst h
            simp
      have hpmem : p ∈ xs ++ [x] := by
        rcases List.mem_cons.1 hp with rfl | hpxs
        · simp
        · exact List.mem_append.2 (Or.inl hpxs)
      obtain ⟨d, hd, he⟩ := chain_pred edge (xs ++ [x]) x hchain p hpmem
      exact ⟨d, hshrink d hd, he⟩

/-- In an acyclic graph, every nonempty set of nodes (inside a finite
carrier) contains a node with no predecessor inside the set. -/
theorem exists_source (packages : List String) (edge : String → String → Prop)
    (hacyc : indi_dependency_checker.Acyclic edge)
    (R : List String) (hne : R ≠ []) (hsub : ∀ r ∈ R, r ∈ packages) :
    ∃ p ∈ R, ∀ d, edge d p → d ∉ R := by
  by_contra hcon
  push_neg at hcon
  have hpred : ∀ p ∈ R, ∃ d ∈ R, edge d p := by
    intro p hp
    obtain ⟨d, he, hdR⟩ := hcon p hp
    exact ⟨d, hdR, he⟩
  obtain ⟨l, hlen, hmem, hchain⟩ := exists_chain_in R edge hne hpred (packages.length + 1)
  have hnotnd : ¬ l.Nodup := by
    intro hnd2
    have := nodup_subset_length l packages hnd2 (fun x hx => hsub x (hmem x hx))
    omega
  obtain ⟨x, l₁, l₂, l₃, rfl⟩ := dup_decomp l hnotnd
  exact hacyc (x :: l₂) (cycle_of_dup_chain edge x l₁ l₂ l₃ hchain)

/-- Ranks increase along a chain, reaching the last node. -/
theorem chain_rank_lt (edge : String → String → Prop) (rk : String → Nat)
    (h : ∀ d p, edge d p → rk d < rk p) :
    ∀ (t : List String) (a : String), List.Chain edge a t →
      ∀ hne : t ≠ [], rk a < rk (t.getLast hne) := by
  intro t
  induction t with
  | nil =>
      intro a _ hne
      exact absurd rfl hne
  | cons b u ih =>
      intro a hchain hne
      rw [List.chain_cons] at hchain
      cases u with
      | nil => simpa [List.getLast] using h a b hchain.1
      | cons c v =>
          have hbu := ih b hchain.2 (by simp)
          have hab := h a b hchain.1
          rw [List.getLast_cons (by simp : (c :: v) ≠ [])]
          omega

/-- A graph admitting a strictly increasing rank function is acyclic. -/
theorem acyclic_of_rank (edge : String → String → Prop) (rk : String → Nat)
    (h : ∀ d p, edge d p → rk d < rk p) :
    indi_dependency_checker.Acyclic edge := by
  intro l hcyc
  cases l with
  | nil => exact hcyc
  | cons x xs =>
      have hchain : List.Chain edge x (xs ++ [x]) := hcyc
      have hne : xs ++ [x] ≠ [] := by simp
      have hlt := chain_rank_lt edge rk h (xs ++ [x]) x hchain hne
      have hlast : (xs ++ [x]).getLast hne = x := by
        rw [List.getLast_append]
        simp
      rw [hlast] at hlt
      omega

/-- C3: on a duplicate-free input whose in-set dependency graph is
acyclic, `sort_packages_by_dependencies` returns a duplicate-free list
containing exactly the input set, in which every package appears after
all of its in-set dependencies (dependencies outside the set impose no
constraint, since only `Edge`-related pairs are constrained). -/
theorem claim_c3_topological_sort (packages : List String) (deps : String → List String)
    (hnd : packages.Nodup)
    (hacyc : indi_dependency_checker.Acyclic (indi_dependency_checker.Edge packages deps)) :
    (∀ p, p ∈ indi_dependency_checker.sort_packages_by_dependencies packages deps
        ↔ p ∈ packages)
    ∧ (indi_dependency_checker.sort_packages_by_dependencies packages deps).Nodup
    ∧ ∀ (i : Nat)
        (hi : i < (indi_dependency_checker.sort_packages_by_dependencies packages deps).length)
        (d : String),
        indi_dependency_checker.Edge packages deps d
          ((indi_dependency_checker.sort_packages_by_dependencies packages deps).get ⟨i, hi⟩) →
        ∃ (j : Nat) (hj : j < i),
          (indi_dependency_checker.sort_packages_by_dependencies packages deps).get
            ⟨j, Nat.lt_trans hj hi⟩ = d := by
  obtain ⟨indegF, hA1, hA2, hB, hC, hE⟩ := sort_final packages deps hnd
  rw [List.append_nil] at hA1
  simp only [List.append_nil] at hA2 hC
  refine ⟨?_, hA1, ?_⟩
  · intro p
    constructor
    · exact fun hp => hA2 p hp
    · intro hp
      by_contra hpout
      have hne : packages.filter
          (fun q => decide (q ∉ indi_dependency_checker.sort_packages_by_dependencies
            packages deps)) ≠ [] := by
        intro h0
        have hpR : p ∈ packages.filter
            (fun q => decide (q ∉ indi_dependency_checker.sort_packages_by_dependencies
              packages deps)) :=
          List.mem_filter.2 ⟨hp, decide_eq_true hpout⟩
        rw [h0] at hpR
        simp at hpR
      have hsub : ∀ r ∈ packages.filter
          (fun q => decide (q ∉ indi_dependency_checker.sort_packages_by_dependencies
            packages deps)), r ∈ packages :=
        fun r hr => (List.mem_filter.1 hr).1
      obtain ⟨q, hqR, hqsrc⟩ := exists_source packages
        (indi_dependency_checker.Edge packages deps) hacyc _ hne hsub
      have hqpk : q ∈ packages := (List.mem_filter.1 hqR).1
      have hqout : q ∉ indi_dependency_checker.sort_packages_by_dependencies packages deps :=
        of_decide_eq_true (List.mem_filter.1 hqR).2
      have hnot : ¬ ∀ d ∈ indi_dependency_checker.inDeps packages deps q,
          d ∈ indi_dependency_checker.sort_packages_by_dependencies packages deps := by
        intro hall
        exact hqout ((hC q hqpk).2 hall)
      push_neg at hnot
      obtain ⟨d, hdin, hdout⟩ := hnot
      have hdp : d ∈ packages := by
        have hcd := (List.mem_filter.1 hdin).2
        rw [contains_eq] at hcd
        exact of_decide_eq_true hcd
      have hedge : indi_dependency_checker.Edge packages deps d q :=
        ⟨hdp, hqpk, (List.mem_filter.1 hdin).1⟩
      exact hqsrc d hedge (List.mem_filter.2 ⟨hdp, decide_eq_true hdout⟩)
  · intro i hi d hedge
    have hdin : d ∈ indi_dependency_checker.inDeps packages deps
        ((indi_dependency_checker.sort_packages_by_dependencies packages deps).get ⟨i, hi⟩) := by
      refine List.mem_filter.2 ⟨hedge.2.2, ?_⟩
      rw [contains_eq]
      exact decide_eq_true hedge.1
    have hmem := hE i hi d hdin
    obtain ⟨⟨j, hjlen⟩, hget⟩ := List.mem_iff_get.1 hmem
    have hj : j < i := by
      rw [List.length_take] at hjlen
      omega
    refine ⟨j, hj, ?_⟩
    have htake := List.get_take
      (indi_dependency_checker.sort_packages_by_dependencies packages deps)
      (Nat.lt_trans hj hi) hj
    exact htake.trans hget

/-- C3 witness: three packages `a <- b <- c` (plus an out-of-set
dependency token `zzz` that imposes no constraint) sort correctly. -/
theorem claim_c3_witness :
    (∀ p, p ∈ indi_dependency_checker.sort_packages_by_dependencies ["a", "b", "c"]
        (fun s => if s = "b" then ["a"] else if s = "c" then ["b", "zzz"] else [])
      ↔ p ∈ ["a", "b", "c"])
    ∧ (indi_dependency_checker.sort_packages_by_dependencies ["a", "b", "c"]
        (fun s => if s = "b" then ["a"] else if s = "c" then ["b", "zzz"] else [])).Nodup := by
  have hrk : ∀ d p, indi_dependency_checker.Edge ["a", "b", "c"]
      (fun s => if s = "b" then ["a"] else if s = "c" then ["b", "zzz"] else []) d p →
      (fun s => if s = "a" then 0 else if s = "b" then 1 else 2 : String → Nat) d
        < (fun s => if s = "a" then 0 else if s = "b" then 1 else 2 : String → Nat) p := by
    intro d p hdp
    obtain ⟨hd, hp, hdep⟩ := hdp
    fin_cases hd <;> fin_cases hp <;> revert hdep <;> decide
  have h := claim_c3_topological_sort ["a", "b", "c"]
    (fun s => if s = "b" then ["a"] else if s = "c" then ["b", "zzz"] else [])
    (by decide) (acyclic_of_rank _ _ hrk)
  exact ⟨h.1, h.2.1⟩

/-- C6: the embedded Kahn sort silently drops exactly the packages that
cannot be dequeued — every element of the output is `Safe` (derivable
with all in-set dependencies dequeued first), no member of a cycle is
`Safe` (hence cycle members, and packages whose every route to zero
in-degree passes through a cycle, are omitted), and on a concrete
2-cycle both members are absent; the function is total, so no error is
raised. -/
theorem claim_c6_cycles_dropped (packages : List String) (deps : String → List String)
    (hnd : packages.Nodup) :
    (∀ p ∈ indi_dependency_checker.sort_packages_by_dependencies packages deps,
        indi_dependency_checker.Safe packages deps p)
    ∧ (∀ (l : List String) (p : String),
        indi_dependency_checker.IsCycle (indi_dependency_checker.Edge packages deps) l →
        p ∈ l → ¬ indi_dependency_checker.Safe packages deps p)
    ∧ indi_dependency_checker.sort_packages_by_dependencies ["pa", "pb"]
        (fun s => if s = "pa" then ["pb"] else if s = "pb" then ["pa"] else []) = [] := by
  refine ⟨?_, ?_, rfl⟩
  · obtain ⟨indegF, hA1, hA2, hB, hC, hE⟩ := sort_final packages deps hnd
    simp only [List.append_nil] at hA2
    have hstrong : ∀ i (hi : i < (indi_dependency_checker.sort_packages_by_dependencies
        packages deps).length),
        indi_dependency_checker.Safe packages deps
          ((indi_dependency_checker.sort_packages_by_dependencies packages deps).get ⟨i, hi⟩) := by
      intro i
      induction i using Nat.strong_induction_on with
      | _ i ih =>
          intro hi
          refine indi_dependency_checker.Safe.intro _
            (hA2 _ (List.get_mem _ i hi)) ?_
          intro d hedge
          have hdin : d ∈ indi_dependency_checker.inDeps packages deps
              ((indi_dependency_checker.sort_packages_by_dependencies
                packages deps).get ⟨i, hi⟩) := by
            refine List.mem_filter.2 ⟨hedge.2.2, ?_⟩
            rw [contains_eq]
            exact decide_eq_true hedge.1
          have hmem := hE i hi d hdin
          obtain ⟨⟨j, hjlen⟩, hget⟩ := List.mem_iff_get.1 hmem
          have hj : j < i := by
            rw [List.length_take] at hjlen
            omega
          have hjo : j < (indi_dependency_checker.sort_packages_by_dependencies
              packages deps).length := Nat.lt_trans hj hi
          have hgeq : (indi_dependency_checker.sort_packages_by_dependencies
              packages deps).get ⟨j, hjo⟩ = d := by
            have htake := List.get_take
              (indi_dependency_checker.sort_packages_by_dependencies packages deps) hjo hj
            exact htake.trans hget
          rw [← hgeq]
          exact ih j hj hjo
    intro p hp
    obtain ⟨⟨i, hi⟩, hgi⟩ := List.mem_iff_get.1 hp
    rw [← hgi]
    exact hstrong i hi
  · intro l p hcyc hp
    have hall : ∀ q, indi_dependency_checker.Safe packages deps q → q ∉ l := by
      intro q hsafe
      induction hsafe with
      | intro q hq hdeps ih =>
          intro hql
          obtain ⟨d, hdl, hedge⟩ :=
            cycle_mem_pred (indi_dependency_checker.Edge packages deps) l hcyc q hql
          exact ih d hedge hdl
    exact fun hsafe => hall p hsafe hp

/-- C6 witness: the concrete 2-cycle `pa <-> pb` — the output is empty
and `pa` is provably not `Safe`. -/
theorem claim_c6_witness :
    indi_dependency_checker.sort_packages_by_dependencies ["pa", "pb"]
        (fun s => if s = "pa" then ["pb"] else if s = "pb" then ["pa"] else []) = []
    ∧ ¬ indi_dependency_checker.Safe ["pa", "pb"]
        (fun s => if s = "pa" then ["pb"] else if s = "pb" then ["pa"] else []) "pa" := by
  have h := claim_c6_cycles_dropped ["pa", "pb"]
    (fun s => if s = "pa" then ["pb"] else if s = "pb" then ["pa"] else []) (by decide)
  refine ⟨h.2.2, h.2.1 ["pa", "pb"] "pa" ?_ (by simp)⟩
  show List.Chain (indi_dependency_checker.Edge ["pa", "pb"]
    (fun s => if s = "pa" then ["pb"] else if s = "pb" then ["pa"] else [])) "pa" (["pb"] ++ ["pa"])
  refine List.Chain.cons ⟨by simp, by simp, by simp⟩
    (List.Chain.cons ⟨by simp, by simp, by simp⟩ List.Chain.nil)
